import Mathlib

/-!
# TACS Gibbs vector and the rigid-body example driver

A shallow embedding of `src/elements/TACSGibbsVector.h` and of the
reference-count calls made by `main` in `examples/rigid/rigid.c`.

* `TacsScalar` is taken as `ℚ` (exact arithmetic).
* C `int` values (`xDV[i]`, `numDVs`) are `Int`; the code only compares them,
  so no overflow can occur.
* Arrays passed by pointer (`dvs`, `fdvSens`, `psi`, `_x`) are lists with
  checked access: a read or write outside the list yields `none`.
* The members `x[3]` and `xDV[3]` are fixed-size arrays, indexed by `Fin 3`.
* Methods are state passing: a method that takes a mutable array returns the
  object together with the array.
-/

namespace TACS

/-- The scalar type of the toolkit, in exact arithmetic. -/
abbrev TacsScalar := ℚ

/-- Checked read `a[k]` through a pointer to an array of `a.length` scalars. -/
def readAt (a : List TacsScalar) (k : Int) : Option TacsScalar :=
  if 0 ≤ k then a[k.toNat]? else none

/-- Checked write `a[k] = val` through a pointer to an array of `a.length` scalars. -/
def writeAt (a : List TacsScalar) (k : Int) (val : TacsScalar) : Option (List TacsScalar) :=
  if 0 ≤ k ∧ k.toNat < a.length then some (a.set k.toNat val) else none

/-- The class `TACSGibbsVector`: members `TacsScalar x[3]` and `int xDV[3]`. -/
structure TACSGibbsVector where
  x : Fin 3 → TacsScalar
  xDV : Fin 3 → Int

namespace TACSGibbsVector

/-- Constructor `TACSGibbsVector( const TacsScalar _x[] )`: copies `_x[0..2]`
and initialises the design variable numbers to `-1`. -/
def ofCoords (_x : List TacsScalar) : Option TACSGibbsVector :=
  (readAt _x 0).bind fun x0 =>
  (readAt _x 1).bind fun x1 =>
  (readAt _x 2).bind fun x2 =>
  some { x := ![x0, x1, x2], xDV := ![-1, -1, -1] }

/-- Constructor `TACSGibbsVector( x1, x2, x3, n1, n2, n3 )`. -/
def ofValues (x1 x2 x3 : TacsScalar) (n1 n2 n3 : Int) : TACSGibbsVector :=
  { x := ![x1, x2, x3], xDV := ![n1, n2, n3] }

/-- Constructor `TACSGibbsVector( const TacsScalar _x[], const int _xDV[] )`. -/
def ofArrays (_x : List TacsScalar) (_xDV : List Int) : Option TACSGibbsVector :=
  (readAt _x 0).bind fun x0 =>
  (readAt _x 1).bind fun x1 =>
  (readAt _x 2).bind fun x2 =>
  _xDV[0]?.bind fun n0 =>
  _xDV[1]?.bind fun n1 =>
  _xDV[2]?.bind fun n2 =>
  some { x := ![x0, x1, x2], xDV := ![n0, n1, n2] }

/-- One line of `setDesignVars`:
`if (xDV[i] >= 0 && xDV[i] < numDVs){ x[i] = dvs[xDV[i]]; }`. -/
def setLine (i : Fin 3) (v : TACSGibbsVector) (dvs : List TacsScalar) (numDVs : Int) :
    Option TACSGibbsVector :=
  if v.xDV i ≥ 0 ∧ v.xDV i < numDVs then
    (readAt dvs (v.xDV i)).bind fun d => some { v with x := Function.update v.x i d }
  else some v

/-- Method `setDesignVars( const TacsScalar *dvs, int numDVs )`: the three lines in order. -/
def setDesignVars (v : TACSGibbsVector) (dvs : List TacsScalar) (numDVs : Int) :
    Option TACSGibbsVector :=
  (setLine 0 v dvs numDVs).bind fun v0 =>
  (setLine 1 v0 dvs numDVs).bind fun v1 =>
  setLine 2 v1 dvs numDVs

/-- One line of `getDesignVars`:
`if (xDV[i] >= 0 && xDV[i] < numDVs){ dvs[xDV[i]] = x[i]; }`. -/
def getLine (i : Fin 3) (v : TACSGibbsVector) (dvs : List TacsScalar) (numDVs : Int) :
    Option (TACSGibbsVector × List TacsScalar) :=
  if v.xDV i ≥ 0 ∧ v.xDV i < numDVs then
    (writeAt dvs (v.xDV i) (v.x i)).bind fun dvs1 => some (v, dvs1)
  else some (v, dvs)

/-- Method `getDesignVars( TacsScalar *dvs, int numDVs )`: the three lines in order. -/
def getDesignVars (v : TACSGibbsVector) (dvs : List TacsScalar) (numDVs : Int) :
    Option (TACSGibbsVector × List TacsScalar) :=
  (getLine 0 v dvs numDVs).bind fun s0 =>
  (getLine 1 s0.1 s0.2 numDVs).bind fun s1 =>
  getLine 2 s1.1 s1.2 numDVs

/-- One line of `addPointAdjResProduct`:
`if (xDV[i] >= 0 && xDV[i] < numDVs){ fdvSens[xDV[i]] += scale*psi[i]; }`. -/
def addLine (i : Fin 3) (v : TACSGibbsVector) (fdvSens : List TacsScalar) (numDVs : Int)
    (scale : TacsScalar) (psi : List TacsScalar) :
    Option (TACSGibbsVector × List TacsScalar) :=
  if v.xDV i ≥ 0 ∧ v.xDV i < numDVs then
    (readAt psi (i.val : Int)).bind fun p =>
    (readAt fdvSens (v.xDV i)).bind fun f =>
    (writeAt fdvSens (v.xDV i) (f + scale * p)).bind fun fdvSens1 => some (v, fdvSens1)
  else some (v, fdvSens)

/-- Method `addPointAdjResProduct( fdvSens, numDVs, scale, psi )`: the three lines in order. -/
def addPointAdjResProduct (v : TACSGibbsVector) (fdvSens : List TacsScalar) (numDVs : Int)
    (scale : TacsScalar) (psi : List TacsScalar) :
    Option (TACSGibbsVector × List TacsScalar) :=
  (addLine 0 v fdvSens numDVs scale psi).bind fun s0 =>
  (addLine 1 s0.1 s0.2 numDVs scale psi).bind fun s1 =>
  addLine 2 s1.1 s1.2 numDVs scale psi

/-- The call sequence `setDesignVars(dvs, n); getDesignVars(dvs2, n)`. -/
def setThenGet (v : TACSGibbsVector) (dvs dvs2 : List TacsScalar) (n : Int) :
    Option (TACSGibbsVector × List TacsScalar) :=
  (v.setDesignVars dvs n).bind fun v1 => v1.getDesignVars dvs2 n

/-- The call sequence `getDesignVars(dvs, n); setDesignVars(dvs, n)` on one array. -/
def getThenSet (v : TACSGibbsVector) (dvs : List TacsScalar) (n : Int) :
    Option (TACSGibbsVector × List TacsScalar) :=
  (v.getDesignVars dvs n).bind fun s =>
  (s.1.setDesignVars s.2 n).bind fun v2 => some (v2, s.2)

/-- The call sequence `addPointAdjResProduct(f, n, s1, psi); addPointAdjResProduct(f, n, s2, psi)`. -/
def addTwice (v : TACSGibbsVector) (fdvSens : List TacsScalar) (n : Int)
    (s1 s2 : TacsScalar) (psi : List TacsScalar) :
    Option (TACSGibbsVector × List TacsScalar) :=
  (v.addPointAdjResProduct fdvSens n s1 psi).bind fun s =>
  s.1.addPointAdjResProduct s.2 n s2 psi

end TACSGibbsVector

open TACSGibbsVector

/-- Whether component `i` passes the guard `xDV[i] >= 0 && xDV[i] < numDVs`. -/
def inRange (v : TACSGibbsVector) (n : Int) (i : Fin 3) : Prop :=
  0 ≤ v.xDV i ∧ v.xDV i < n

instance inRange.decidable (v : TACSGibbsVector) (n : Int) (i : Fin 3) :
    Decidable (inRange v n i) :=
  inferInstanceAs (Decidable (0 ≤ v.xDV i ∧ v.xDV i < n))

/-- What `addPointAdjResProduct` adds at position `m`, before scaling: the sum of `p i`
over the components whose index passes the guard and equals `m`. -/
def contribution (v : TACSGibbsVector) (n : Int) (p : Fin 3 → TacsScalar) (m : Nat) :
    TacsScalar :=
  ∑ i : Fin 3, if 0 ≤ v.xDV i ∧ v.xDV i < n ∧ v.xDV i = (m : Int) then p i else 0

/-! ## The example driver `examples/rigid/rigid.c`

Only the reference-count traffic of `main` is modelled: each `new`, `incref()` and
`decref()` that `main` itself performs, in source order. -/

/-- The reference-counted objects that `main` creates. -/
inductive Obj
  | r0Vec | r1Vec | r2Vec | refFrameA
  | gravVec | rInitVec | vInitVec | omegaInitVec
  | bodyA | bodyB | pointVec | con | tacs | bdf
  deriving DecidableEq, Repr

/-- A reference-count related statement of `main`. -/
inductive Call
  | create (o : Obj)
  | incref (o : Obj)
  | decref (o : Obj)
  deriving DecidableEq, Repr

/-- The statements of `main`, lines 16 to 142, in order. -/
def rigidMain : List Call :=
  [ .create .r0Vec, .incref .r0Vec,               -- line 16
    .create .r1Vec, .incref .r1Vec,               -- line 17
    .create .r2Vec, .incref .r2Vec,               -- line 18
    .create .refFrameA,                           -- line 20
    .create .gravVec, .incref .gravVec,           -- line 34
    .create .rInitVec, .incref .rInitVec,         -- line 35
    .create .vInitVec, .incref .vInitVec,         -- line 36
    .create .omegaInitVec, .incref .omegaInitVec, -- line 37
    .create .bodyA,                               -- line 40
    .create .bodyB,                               -- line 55
    .incref .bodyB,                               -- line 58
    .create .pointVec, .incref .pointVec,         -- line 62
    .create .con,                                 -- line 65
    .incref .con,                                 -- line 66
    .create .tacs,                                -- line 73
    .incref .tacs,                                -- line 75
    .create .bdf,                                 -- line 93
    .incref .bdf,                                 -- line 95
    .decref .bdf,                                 -- line 108
    .decref .bodyA,                               -- line 130
    .decref .bodyB,                               -- line 131
    .decref .con,                                 -- line 132
    .decref .r0Vec,                               -- line 134
    .decref .r1Vec,                               -- line 135
    .decref .r2Vec,                               -- line 136
    .decref .gravVec,                             -- line 138
    .decref .rInitVec,                            -- line 139
    .decref .vInitVec,                            -- line 140
    .decref .tacs ]                               -- line 142

/-- The objects the balance property is stated for. -/
def driverObjects : List Obj :=
  [.r0Vec, .r1Vec, .r2Vec, .gravVec, .rInitVec, .vInitVec, .omegaInitVec, .pointVec,
    .bodyA, .bodyB, .con, .tacs, .bdf]

/-- Number of `o->incref()` calls in a statement list. -/
def increfs (t : List Call) (o : Obj) : Nat := t.count (.incref o)

/-- Number of `o->decref()` calls in a statement list. -/
def decrefs (t : List Call) (o : Obj) : Nat := t.count (.decref o)

/-- References to `o` held by the driver after the statements `t`, starting from `held`;
`none` when some `decref` comes with no reference held. -/
def driverHolds (o : Obj) : List Call → Nat → Option Nat
  | [], held => some held
  | c :: t, held =>
    if c = .incref o then driverHolds o t (held + 1)
    else if c = .decref o then
      (if held = 0 then none else driverHolds o t (held - 1))
    else driverHolds o t held

/-! ## Basic facts on checked access -/

theorem readAt_nat (a : List TacsScalar) (k : Nat) : readAt a (k : Int) = a[k]? := by
  simp [readAt]

theorem readAt_inBounds (a : List TacsScalar) (k n : Int) (h0 : 0 ≤ k) (hk : k < n)
    (hn : n ≤ (a.length : Int)) : ∃ d, readAt a k = some d ∧ a[k.toNat]? = some d := by
  have hlt : k.toNat < a.length := by omega
  exact ⟨a[k.toNat], by simp [readAt, h0, List.getElem?_eq_getElem hlt],
    List.getElem?_eq_getElem hlt⟩

theorem writeAt_inBounds (a : List TacsScalar) (k n : Int) (val : TacsScalar) (h0 : 0 ≤ k)
    (hk : k < n) (hn : n ≤ (a.length : Int)) : writeAt a k val = some (a.set k.toNat val) := by
  have hlt : k.toNat < a.length := by omega
  simp [writeAt, h0, hlt]

/-- A checked read fails exactly when the position is outside the array. -/
theorem readAt_eq_none_iff (a : List TacsScalar) (k : Int) :
    readAt a k = none ↔ k < 0 ∨ (a.length : Int) ≤ k := by
  unfold readAt
  by_cases h0 : 0 ≤ k
  · rw [if_pos h0, List.getElem?_eq_none_iff]
    omega
  · rw [if_neg h0]
    simp only [true_iff]
    omega

/-- A checked write fails exactly when the position is outside the array. -/
theorem writeAt_eq_none_iff (a : List TacsScalar) (k : Int) (val : TacsScalar) :
    writeAt a k val = none ↔ k < 0 ∨ (a.length : Int) ≤ k := by
  unfold writeAt
  by_cases h : 0 ≤ k ∧ k.toNat < a.length
  · rw [if_pos h]
    simp only [reduceCtorEq, false_iff]
    omega
  · rw [if_neg h]
    simp only [true_iff]
    omega

/-- The guard compares against `numDVs`, not against the array: with an array shorter than
`numDVs` a line of `getDesignVars` can write out of bounds. -/
theorem getLine_short_array (i : Fin 3) (v : TACSGibbsVector) (dvs : List TacsScalar) (n : Int)
    (hg : 0 ≤ v.xDV i ∧ v.xDV i < n) (hs : (dvs.length : Int) ≤ v.xDV i) :
    getLine i v dvs n = none := by
  have hw : writeAt dvs (v.xDV i) (v.x i) = none :=
    (writeAt_eq_none_iff dvs (v.xDV i) (v.x i)).2 (Or.inr hs)
  simp only [getLine, ge_iff_le]
  rw [if_pos hg, hw]
  rfl

/-! ## One line at a time -/

/-- A line of `setDesignVars` returns; it reads `dvs[xDV[i]]` into `x[i]` when the guard
holds and touches nothing else. -/
theorem setLine_spec (i : Fin 3) (v : TACSGibbsVector) (dvs : List TacsScalar) (n : Int)
    (hn : n ≤ (dvs.length : Int)) :
    ∃ w, setLine i v dvs n = some w ∧ w.xDV = v.xDV ∧ (∀ j, j ≠ i → w.x j = v.x j) ∧
      ((0 ≤ v.xDV i ∧ v.xDV i < n) → readAt dvs (v.xDV i) = some (w.x i)) ∧
      (¬ (0 ≤ v.xDV i ∧ v.xDV i < n) → w.x i = v.x i) := by
  by_cases hg : 0 ≤ v.xDV i ∧ v.xDV i < n
  · obtain ⟨d, hd, -⟩ := readAt_inBounds dvs (v.xDV i) n hg.1 hg.2 hn
    refine ⟨{ v with x := Function.update v.x i d }, ?_, rfl, ?_, ?_, ?_⟩
    · simp [setLine, hg, hd]
    · intro j hj
      simp [Function.update_noteq hj]
    · intro _
      simp [hd]
    · intro h
      exact absurd hg h
  · refine ⟨v, ?_, rfl, fun _ _ => rfl, fun h => absurd h hg, fun _ => rfl⟩
    simp only [setLine, ge_iff_le]
    rw [if_neg hg]

/-- A line of `getDesignVars` returns; it leaves the object alone and writes `x[i]` at
position `xDV[i]` when the guard holds. -/
theorem getLine_spec (i : Fin 3) (v : TACSGibbsVector) (dvs : List TacsScalar) (n : Int)
    (hn : n ≤ (dvs.length : Int)) :
    ∃ out, getLine i v dvs n = some (v, out) ∧ out.length = dvs.length ∧
      ∀ m : Nat, out[m]? =
        if 0 ≤ v.xDV i ∧ v.xDV i < n ∧ v.xDV i = (m : Int) then some (v.x i) else dvs[m]? := by
  by_cases hg : 0 ≤ v.xDV i ∧ v.xDV i < n
  · refine ⟨dvs.set (v.xDV i).toNat (v.x i), ?_, by simp, ?_⟩
    · simp [getLine, hg, writeAt_inBounds dvs (v.xDV i) n (v.x i) hg.1 hg.2 hn]
    · intro m
      have hlt : (v.xDV i).toNat < dvs.length := by omega
      by_cases hm : v.xDV i = (m : Int)
      · have hm2 : (v.xDV i).toNat = m := by omega
        rw [if_pos ⟨hg.1, hg.2, hm⟩, ← hm2]
        simp [hlt]
      · have hm2 : (v.xDV i).toNat ≠ m := by omega
        simp [hm, List.getElem?_set_ne hm2]
  · refine ⟨dvs, ?_, rfl, ?_⟩
    · simp only [getLine, ge_iff_le]
      rw [if_neg hg]
    · intro m
      have : ¬ (0 ≤ v.xDV i ∧ v.xDV i < n ∧ v.xDV i = (m : Int)) := fun h => hg ⟨h.1, h.2.1⟩
      rw [if_neg this]

/-- A line of `addPointAdjResProduct` returns; it leaves the object alone and adds
`scale * psi[i]` at position `xDV[i]` when the guard holds. -/
theorem addLine_spec (i : Fin 3) (v : TACSGibbsVector) (a : List TacsScalar) (n : Int)
    (scale : TacsScalar) (psi : List TacsScalar) (p : Fin 3 → TacsScalar)
    (hn : n ≤ (a.length : Int)) (hpsi : ∀ j : Fin 3, psi[j.val]? = some (p j)) :
    ∃ out, addLine i v a n scale psi = some (v, out) ∧ out.length = a.length ∧
      ∀ m : Nat, out[m]? = (a[m]?).map fun f =>
        f + scale * (if 0 ≤ v.xDV i ∧ v.xDV i < n ∧ v.xDV i = (m : Int) then p i else 0) := by
  by_cases hg : 0 ≤ v.xDV i ∧ v.xDV i < n
  · obtain ⟨f, hf, hf2⟩ := readAt_inBounds a (v.xDV i) n hg.1 hg.2 hn
    refine ⟨a.set (v.xDV i).toNat (f + scale * p i), ?_, by simp, ?_⟩
    · simp [addLine, hg, hf, readAt_nat, hpsi i,
        writeAt_inBounds a (v.xDV i) n (f + scale * p i) hg.1 hg.2 hn]
    · intro m
      have hlt : (v.xDV i).toNat < a.length := by omega
      by_cases hm : v.xDV i = (m : Int)
      · have hm2 : (v.xDV i).toNat = m := by omega
        rw [if_pos ⟨hg.1, hg.2, hm⟩, ← hm2]
        simp [hlt, hf2]
      · have hm2 : (v.xDV i).toNat ≠ m := by omega
        simp [hm, List.getElem?_set_ne hm2]
  · refine ⟨a, ?_, rfl, ?_⟩
    · simp only [addLine, ge_iff_le]
      rw [if_neg hg]
    · intro m
      have : ¬ (0 ≤ v.xDV i ∧ v.xDV i < n ∧ v.xDV i = (m : Int)) := fun h => hg ⟨h.1, h.2.1⟩
      rw [if_neg this]
      simp

/-! ## The three methods -/

theorem setDesignVars_spec (v : TACSGibbsVector) (dvs : List TacsScalar) (n : Int)
    (hn : n ≤ (dvs.length : Int)) :
    ∃ w, setDesignVars v dvs n = some w ∧ w.xDV = v.xDV ∧
      ∀ i, (inRange v n i → readAt dvs (v.xDV i) = some (w.x i)) ∧
        (¬ inRange v n i → w.x i = v.x i) := by
  obtain ⟨w0, e0, d0, o0, r0, k0⟩ := setLine_spec 0 v dvs n hn
  obtain ⟨w1, e1, d1, o1, r1, k1⟩ := setLine_spec 1 w0 dvs n hn
  obtain ⟨w2, e2, d2, o2, r2, k2⟩ := setLine_spec 2 w1 dvs n hn
  refine ⟨w2, by simp [setDesignVars, e0, e1, e2], by rw [d2, d1, d0], ?_⟩
  rw [d1, d0] at r2 k2
  rw [d0] at r1 k1
  have a0 : w2.x 0 = w0.x 0 := by rw [o2 0 (by decide), o1 0 (by decide)]
  have a1 : w2.x 1 = w1.x 1 := o2 1 (by decide)
  have c1 : w0.x 1 = v.x 1 := o0 1 (by decide)
  have c2 : w1.x 2 = v.x 2 := by rw [o1 2 (by decide), o0 2 (by decide)]
  have h0 : (inRange v n 0 → readAt dvs (v.xDV 0) = some (w2.x 0)) ∧
      (¬ inRange v n 0 → w2.x 0 = v.x 0) :=
    ⟨fun h => by rw [a0]; exact r0 h, fun h => by rw [a0]; exact k0 h⟩
  have h1 : (inRange v n 1 → readAt dvs (v.xDV 1) = some (w2.x 1)) ∧
      (¬ inRange v n 1 → w2.x 1 = v.x 1) :=
    ⟨fun h => by rw [a1]; exact r1 h, fun h => by rw [a1, k1 h, c1]⟩
  have h2 : (inRange v n 2 → readAt dvs (v.xDV 2) = some (w2.x 2)) ∧
      (¬ inRange v n 2 → w2.x 2 = v.x 2) :=
    ⟨fun h => r2 h, fun h => by rw [k2 h, c2]⟩
  intro i
  fin_cases i
  · exact h0
  · exact h1
  · exact h2

theorem getDesignVars_spec (v : TACSGibbsVector) (dvs : List TacsScalar) (n : Int)
    (hn : n ≤ (dvs.length : Int)) :
    ∃ out, getDesignVars v dvs n = some (v, out) ∧ out.length = dvs.length ∧
      ∀ m : Nat, out[m]? =
        if 0 ≤ v.xDV 2 ∧ v.xDV 2 < n ∧ v.xDV 2 = (m : Int) then some (v.x 2)
        else if 0 ≤ v.xDV 1 ∧ v.xDV 1 < n ∧ v.xDV 1 = (m : Int) then some (v.x 1)
        else if 0 ≤ v.xDV 0 ∧ v.xDV 0 < n ∧ v.xDV 0 = (m : Int) then some (v.x 0)
        else dvs[m]? := by
  obtain ⟨o0, e0, l0, g0⟩ := getLine_spec 0 v dvs n hn
  obtain ⟨o1, e1, l1, g1⟩ := getLine_spec 1 v o0 n (by rw [l0]; exact hn)
  obtain ⟨o2, e2, l2, g2⟩ := getLine_spec 2 v o1 n (by rw [l1, l0]; exact hn)
  refine ⟨o2, by simp [getDesignVars, e0, e1, e2], by rw [l2, l1, l0], ?_⟩
  intro m
  rw [g2 m, g1 m, g0 m]

theorem addPointAdjResProduct_spec (v : TACSGibbsVector) (a : List TacsScalar) (n : Int)
    (scale : TacsScalar) (psi : List TacsScalar) (p : Fin 3 → TacsScalar)
    (hn : n ≤ (a.length : Int)) (hpsi : ∀ j : Fin 3, psi[j.val]? = some (p j)) :
    ∃ out, addPointAdjResProduct v a n scale psi = some (v, out) ∧ out.length = a.length ∧
      ∀ m : Nat, out[m]? = (a[m]?).map fun f => f + scale * contribution v n p m := by
  obtain ⟨o0, e0, l0, g0⟩ := addLine_spec 0 v a n scale psi p hn hpsi
  obtain ⟨o1, e1, l1, g1⟩ := addLine_spec 1 v o0 n scale psi p (by rw [l0]; exact hn) hpsi
  obtain ⟨o2, e2, l2, g2⟩ := addLine_spec 2 v o1 n scale psi p (by rw [l1, l0]; exact hn) hpsi
  refine ⟨o2, by simp [addPointAdjResProduct, e0, e1, e2], by rw [l2, l1, l0], ?_⟩
  intro m
  rw [g2 m, g1 m, g0 m, Option.map_map, Option.map_map]
  congr 1
  funext f
  simp only [Function.comp, contribution, Fin.sum_univ_three]
  ring

theorem fin3_forall {P : Fin 3 → Prop} (h0 : P 0) (h1 : P 1) (h2 : P 2) : ∀ i, P i := by
  intro i
  fin_cases i
  · exact h0
  · exact h1
  · exact h2

/-- After `getDesignVars`, the position named by an in-range component holds the value of the
last component that shares this index. -/
theorem getDesignVars_last (v : TACSGibbsVector) (dvs : List TacsScalar) (n : Int)
    (hn : n ≤ (dvs.length : Int)) :
    ∃ out, getDesignVars v dvs n = some (v, out) ∧ out.length = dvs.length ∧
      ∀ i, inRange v n i → ∃ j, v.xDV j = v.xDV i ∧ (∀ l, v.xDV l = v.xDV i → l ≤ j) ∧
        readAt out (v.xDV i) = some (v.x j) := by
  obtain ⟨out, e, l, g⟩ := getDesignVars_spec v dvs n hn
  refine ⟨out, e, l, ?_⟩
  intro i hi
  obtain ⟨hi0, hin⟩ := hi
  have hr : readAt out (v.xDV i) = out[(v.xDV i).toNat]? := by simp [readAt, hi0]
  have hc : (((v.xDV i).toNat : Nat) : Int) = v.xDV i := Int.toNat_of_nonneg hi0
  rw [hr, g, hc]
  by_cases h2 : v.xDV 2 = v.xDV i
  · refine ⟨2, h2, fun l _ => Fin.le_last l, ?_⟩
    rw [if_pos ⟨by rw [h2]; exact hi0, by rw [h2]; exact hin, h2⟩]
  · rw [if_neg (fun h => h2 h.2.2)]
    by_cases h1 : v.xDV 1 = v.xDV i
    · refine ⟨1, h1, ?_, ?_⟩
      · refine fin3_forall (fun _ => by decide) (fun _ => le_refl _) (fun h => absurd h h2)
      · rw [if_pos ⟨by rw [h1]; exact hi0, by rw [h1]; exact hin, h1⟩]
    · rw [if_neg (fun h => h1 h.2.2)]
      have h0 : v.xDV 0 = v.xDV i := by
        revert hi0 hin h1 h2
        refine fin3_forall (P := fun i => 0 ≤ v.xDV i → v.xDV i < n → ¬ v.xDV 2 = v.xDV i →
          ¬ v.xDV 1 = v.xDV i → v.xDV 0 = v.xDV i) ?_ ?_ ?_ i
        · exact fun _ _ _ _ => rfl
        · exact fun _ _ _ h => absurd rfl h
        · exact fun _ _ h _ => absurd rfl h
      refine ⟨0, h0, ?_, ?_⟩
      · refine fin3_forall (fun _ => le_refl _) (fun h => absurd h h1) (fun h => absurd h h2)
      · rw [if_pos ⟨by rw [h0]; exact hi0, by rw [h0]; exact hin, h0⟩]

theorem contribution_eq_filter (v : TACSGibbsVector) (n : Int) (p : Fin 3 → TacsScalar)
    (k : Nat) (hk : (k : Int) < n) :
    contribution v n p k = ∑ i in Finset.univ.filter (fun i => v.xDV i = (k : Int)), p i := by
  unfold contribution
  rw [Finset.sum_filter]
  refine Finset.sum_congr rfl fun i _ => ?_
  by_cases h : v.xDV i = (k : Int)
  · rw [if_pos h, if_pos ⟨by omega, by omega, h⟩]
  · rw [if_neg h, if_neg (fun hh => h hh.2.2)]

theorem contribution_eq_zero (v : TACSGibbsVector) (n : Int) (p : Fin 3 → TacsScalar)
    (k : Nat) (hk : n ≤ (k : Int)) : contribution v n p k = 0 := by
  unfold contribution
  refine Finset.sum_eq_zero fun i _ => ?_
  rw [if_neg]
  intro h
  omega

theorem psi_entries (psi : List TacsScalar) (h : 3 ≤ psi.length) :
    ∃ p : Fin 3 → TacsScalar, ∀ j : Fin 3, psi[j.val]? = some (p j) := by
  refine ⟨fun j => psi.get ⟨j.val, by omega⟩, fun j => ?_⟩
  exact List.getElem?_eq_getElem (by omega)

/-! ## Postconditions of the three methods -/

/-- C3: `setDesignVars(dvs, n)` on an array of at least `n` entries returns, leaves the index
triple `xDV` unchanged, and each component `i` ends as `dvs[xDV[i]]` when
`0 ≤ xDV[i] < n` and keeps its old value otherwise. -/
theorem setDesignVars_postcondition (v : TACSGibbsVector) (dvs : List TacsScalar) (n : Int)
    (hn : n ≤ (dvs.length : Int)) :
    ∃ w, setDesignVars v dvs n = some w ∧ w.xDV = v.xDV ∧
      ∀ i : Fin 3,
        ((0 ≤ v.xDV i ∧ v.xDV i < n) → readAt dvs (v.xDV i) = some (w.x i)) ∧
        (¬ (0 ≤ v.xDV i ∧ v.xDV i < n) → w.x i = v.x i) :=
  setDesignVars_spec v dvs n hn

theorem setDesignVars_postcondition_witness :
    ∃ w, setDesignVars (ofValues 1 2 3 1 1 (-1)) [10, 20] 2 = some w ∧
      w.xDV = (ofValues 1 2 3 1 1 (-1)).xDV ∧
      ∀ i : Fin 3,
        ((0 ≤ (ofValues 1 2 3 1 1 (-1)).xDV i ∧ (ofValues 1 2 3 1 1 (-1)).xDV i < 2) →
          readAt [10, 20] ((ofValues 1 2 3 1 1 (-1)).xDV i) = some (w.x i)) ∧
        (¬ (0 ≤ (ofValues 1 2 3 1 1 (-1)).xDV i ∧ (ofValues 1 2 3 1 1 (-1)).xDV i < 2) →
          w.x i = (ofValues 1 2 3 1 1 (-1)).x i) :=
  setDesignVars_postcondition (ofValues 1 2 3 1 1 (-1)) [10, 20] 2 (by decide)

/-- C4: `getDesignVars(dvs, n)` on an array of at least `n` entries returns with the
object unchanged; every position `k < n` holds `x[j]` for the largest `j` with
`xDV[j] = k` when there is one and its old value when no component has index `k`;
positions `k ≥ n` are unchanged. -/
theorem getDesignVars_postcondition (v : TACSGibbsVector) (dvs : List TacsScalar) (n : Int)
    (hn : n ≤ (dvs.length : Int)) :
    ∃ out, getDesignVars v dvs n = some (v, out) ∧ out.length = dvs.length ∧
      (∀ k : Nat, (k : Int) < n →
        (∀ j : Fin 3, v.xDV j = (k : Int) → (∀ i : Fin 3, v.xDV i = (k : Int) → i ≤ j) →
          out[k]? = some (v.x j)) ∧
        ((∀ i : Fin 3, v.xDV i ≠ (k : Int)) → out[k]? = dvs[k]?)) ∧
      (∀ k : Nat, n ≤ (k : Int) → out[k]? = dvs[k]?) := by
  obtain ⟨out, e, l, g⟩ := getDesignVars_spec v dvs n hn
  refine ⟨out, e, l, ?_, ?_⟩
  · intro k hk
    have hk0 : (0 : Int) ≤ (k : Int) := Int.ofNat_nonneg k
    constructor
    · intro j hj hmax
      rw [g k]
      by_cases h2 : v.xDV 2 = (k : Int)
      · have hj2 : j = 2 := le_antisymm (Fin.le_last j) (hmax 2 h2)
        rw [if_pos ⟨by rw [h2]; exact hk0, by rw [h2]; exact hk, h2⟩, hj2]
      · rw [if_neg (fun h => h2 h.2.2)]
        by_cases h1 : v.xDV 1 = (k : Int)
        · have hj1 : j = 1 := by
            revert hj
            refine fin3_forall (P := fun j => (∀ i : Fin 3, v.xDV i = (k : Int) → i ≤ j) →
              v.xDV j = (k : Int) → j = 1) ?_ ?_ ?_ j hmax
            · exact fun hm _ => absurd (hm 1 h1) (by decide)
            · exact fun _ _ => rfl
            · exact fun _ h => absurd h h2
          rw [if_pos ⟨by rw [h1]; exact hk0, by rw [h1]; exact hk, h1⟩, hj1]
        · rw [if_neg (fun h => h1 h.2.2)]
          have hj0 : j = 0 := by
            revert hj
            refine fin3_forall (P := fun j => v.xDV j = (k : Int) → j = 0) ?_ ?_ ?_ j
            · exact fun _ => rfl
            · exact fun h => absurd h h1
            · exact fun h => absurd h h2
          subst hj0
          rw [if_pos ⟨by rw [hj]; exact hk0, by rw [hj]; exact hk, hj⟩]
    · intro hno
      rw [g k, if_neg (fun h => hno 2 h.2.2), if_neg (fun h => hno 1 h.2.2),
        if_neg (fun h => hno 0 h.2.2)]
  · intro k hk
    rw [g k, if_neg (fun h => by omega), if_neg (fun h => by omega),
      if_neg (fun h => by omega)]

theorem getDesignVars_postcondition_witness :
    ∃ out, getDesignVars (ofValues 1 2 3 0 0 5) [7, 8, 9] 2 = some (ofValues 1 2 3 0 0 5, out) ∧
      out.length = [(7 : TacsScalar), 8, 9].length ∧
      (∀ k : Nat, (k : Int) < 2 →
        (∀ j : Fin 3, (ofValues 1 2 3 0 0 5).xDV j = (k : Int) →
          (∀ i : Fin 3, (ofValues 1 2 3 0 0 5).xDV i = (k : Int) → i ≤ j) →
          out[k]? = some ((ofValues 1 2 3 0 0 5).x j)) ∧
        ((∀ i : Fin 3, (ofValues 1 2 3 0 0 5).xDV i ≠ (k : Int)) →
          out[k]? = [(7 : TacsScalar), 8, 9][k]?)) ∧
      (∀ k : Nat, (2 : Int) ≤ (k : Int) → out[k]? = [(7 : TacsScalar), 8, 9][k]?) :=
  getDesignVars_postcondition (ofValues 1 2 3 0 0 5) [7, 8, 9] 2 (by decide)

/-- C5: `addPointAdjResProduct(fdvSens, n, scale, psi)` on an array of at least `n` entries
returns with the object unchanged; every position `k < n` holds
`fdvSens[k] + scale * (sum of psi[i] over the i with xDV[i] = k)`, and positions
`k ≥ n` are unchanged. -/
theorem addPointAdjResProduct_postcondition (v : TACSGibbsVector) (fdvSens : List TacsScalar)
    (n : Int) (scale : TacsScalar) (psi : List TacsScalar) (p : Fin 3 → TacsScalar)
    (hn : n ≤ (fdvSens.length : Int)) (hpsi : ∀ j : Fin 3, psi[j.val]? = some (p j)) :
    ∃ out, addPointAdjResProduct v fdvSens n scale psi = some (v, out) ∧
      out.length = fdvSens.length ∧
      (∀ k : Nat, (k : Int) < n → ∃ f, fdvSens[k]? = some f ∧
        out[k]? = some (f + scale *
          ∑ i in Finset.univ.filter (fun i : Fin 3 => v.xDV i = (k : Int)), p i)) ∧
      (∀ k : Nat, n ≤ (k : Int) → out[k]? = fdvSens[k]?) := by
  obtain ⟨out, e, l, g⟩ := addPointAdjResProduct_spec v fdvSens n scale psi p hn hpsi
  refine ⟨out, e, l, ?_, ?_⟩
  · intro k hk
    have hlt : k < fdvSens.length := by omega
    refine ⟨fdvSens[k], List.getElem?_eq_getElem hlt, ?_⟩
    rw [g k, List.getElem?_eq_getElem hlt, contribution_eq_filter v n p k hk]
    rfl
  · intro k hk
    rw [g k, contribution_eq_zero v n p k hk]
    simp

theorem addPointAdjResProduct_postcondition_witness :
    ∃ out, addPointAdjResProduct (ofValues 1 2 3 0 0 (-1)) [7, 8] 2 3 [1, 10, 100] =
        some (ofValues 1 2 3 0 0 (-1), out) ∧
      out.length = [(7 : TacsScalar), 8].length ∧
      (∀ k : Nat, (k : Int) < 2 → ∃ f, [(7 : TacsScalar), 8][k]? = some f ∧
        out[k]? = some (f + 3 *
          ∑ i in Finset.univ.filter (fun i : Fin 3 => (ofValues 1 2 3 0 0 (-1)).xDV i = (k : Int)),
            (![1, 10, 100] : Fin 3 → TacsScalar) i)) ∧
      (∀ k : Nat, (2 : Int) ≤ (k : Int) → out[k]? = [(7 : TacsScalar), 8][k]?) :=
  addPointAdjResProduct_postcondition (ofValues 1 2 3 0 0 (-1)) [7, 8] 2 3 [1, 10, 100]
    ![1, 10, 100] (by decide) (fin3_forall rfl rfl rfl)

/-! ## Algebraic laws -/

/-- C2: with exact scalars, `addPointAdjResProduct` with scale `s1` followed by the same call
with scale `s2` returns the same array as one call with scale `s1 + s2` from the same
starting array, also when components share a design variable index. -/
theorem addPointAdjResProduct_linear (v : TACSGibbsVector) (fdvSens : List TacsScalar)
    (n : Int) (s1 s2 : TacsScalar) (psi : List TacsScalar)
    (hn : n ≤ (fdvSens.length : Int)) (hpsi : 3 ≤ psi.length) :
    ∃ out, addTwice v fdvSens n s1 s2 psi = some (v, out) ∧
      addPointAdjResProduct v fdvSens n (s1 + s2) psi = some (v, out) := by
  obtain ⟨p, hp⟩ := psi_entries psi hpsi
  obtain ⟨o1, e1, l1, g1⟩ := addPointAdjResProduct_spec v fdvSens n s1 psi p hn hp
  obtain ⟨o2, e2, _, g2⟩ :=
    addPointAdjResProduct_spec v o1 n s2 psi p (by rw [l1]; exact hn) hp
  obtain ⟨o3, e3, _, g3⟩ := addPointAdjResProduct_spec v fdvSens n (s1 + s2) psi p hn hp
  have h23 : o2 = o3 := by
    apply List.ext_getElem?
    intro m
    rw [g2 m, g1 m, g3 m, Option.map_map]
    congr 1
    funext f
    simp only [Function.comp]
    ring
  refine ⟨o3, ?_, e3⟩
  simp [addTwice, e1, e2, h23]

theorem addPointAdjResProduct_linear_witness :
    ∃ out, addTwice (ofValues 1 2 3 0 0 1) [7, 8] 2 3 4 [1, 10, 100] =
        some (ofValues 1 2 3 0 0 1, out) ∧
      addPointAdjResProduct (ofValues 1 2 3 0 0 1) [7, 8] 2 (3 + 4) [1, 10, 100] =
        some (ofValues 1 2 3 0 0 1, out) :=
  addPointAdjResProduct_linear (ofValues 1 2 3 0 0 1) [7, 8] 2 3 4 [1, 10, 100]
    (by decide) (by decide)

/-- C1: `setDesignVars(dvs, n)` followed by `getDesignVars(dvs2, n)`, on arrays of at least
`n` entries, returns; for every `i` with `0 ≤ xDV[i] < n` the entry `dvs2[xDV[i]]` equals
`dvs[xDV[i]]`, and every component whose index is `-1` keeps the value it had. -/
theorem setThenGet_roundTrip (v : TACSGibbsVector) (dvs dvs2 : List TacsScalar) (n : Int)
    (hn : n ≤ (dvs.length : Int)) (hn2 : n ≤ (dvs2.length : Int)) :
    ∃ w out, setThenGet v dvs dvs2 n = some (w, out) ∧
      (∀ i : Fin 3, 0 ≤ v.xDV i ∧ v.xDV i < n →
        ∃ d, readAt dvs (v.xDV i) = some d ∧ readAt out (v.xDV i) = some d) ∧
      (∀ i : Fin 3, v.xDV i = -1 → w.x i = v.x i) := by
  obtain ⟨w, e, hd, hx⟩ := setDesignVars_spec v dvs n hn
  obtain ⟨out, e2, _, hl⟩ := getDesignVars_last w dvs2 n hn2
  refine ⟨w, out, by simp [setThenGet, e, e2], ?_, ?_⟩
  · intro i hi
    have hiw : inRange w n i := by
      unfold inRange
      rw [hd]
      exact hi
    obtain ⟨j, hj, -, hr⟩ := hl i hiw
    rw [hd] at hj hr
    have hjv : inRange v n j := by
      unfold inRange
      rw [hj]
      exact hi
    refine ⟨w.x j, ?_, hr⟩
    rw [← hj]
    exact (hx j).1 hjv
  · intro i hi
    refine (hx i).2 ?_
    unfold inRange
    rw [hi]
    omega

theorem setThenGet_roundTrip_witness :
    ∃ w out, setThenGet (ofValues 1 2 3 1 1 (-1)) [10, 20] [0, 0, 0] 2 = some (w, out) ∧
      (∀ i : Fin 3,
        0 ≤ (ofValues 1 2 3 1 1 (-1)).xDV i ∧ (ofValues 1 2 3 1 1 (-1)).xDV i < 2 →
        ∃ d, readAt [10, 20] ((ofValues 1 2 3 1 1 (-1)).xDV i) = some d ∧
          readAt out ((ofValues 1 2 3 1 1 (-1)).xDV i) = some d) ∧
      (∀ i : Fin 3, (ofValues 1 2 3 1 1 (-1)).xDV i = -1 →
        w.x i = (ofValues 1 2 3 1 1 (-1)).x i) :=
  setThenGet_roundTrip (ofValues 1 2 3 1 1 (-1)) [10, 20] [0, 0, 0] 2 (by decide) (by decide)

/-- What `getDesignVars(dvs, n)` followed by `setDesignVars(dvs, n)` leaves in the object:
an in-range component receives the value of the last component sharing its index. -/
theorem getThenSet_spec (v : TACSGibbsVector) (dvs : List TacsScalar) (n : Int)
    (hn : n ≤ (dvs.length : Int)) :
    ∃ w out, getThenSet v dvs n = some (w, out) ∧ w.xDV = v.xDV ∧
      ∀ i, (inRange v n i → ∃ j, v.xDV j = v.xDV i ∧ (∀ l, v.xDV l = v.xDV i → l ≤ j) ∧
          w.x i = v.x j) ∧
        (¬ inRange v n i → w.x i = v.x i) := by
  obtain ⟨out, e, l, hl⟩ := getDesignVars_last v dvs n hn
  obtain ⟨w, e2, hd, hx⟩ := setDesignVars_spec v out n (by rw [l]; exact hn)
  refine ⟨w, out, by simp [getThenSet, e, e2], hd, fun i => ⟨fun hi => ?_, (hx i).2⟩⟩
  obtain ⟨j, hj, hmax, hr⟩ := hl i hi
  refine ⟨j, hj, hmax, ?_⟩
  have := (hx i).1 hi
  rw [hr] at this
  exact (Option.some.inj this).symm

/-- C7 fails as stated: with `x = (1, 2, 3)`, `xDV = (0, 0, -1)`, `n = 1` and `dvs = [0]`,
`getDesignVars` then `setDesignVars` returns with `x[0] = 2`, not the former `1`. -/
theorem getThenSet_changes_shared_component :
    (1 : Int) ≤ (([0] : List TacsScalar).length : Int) ∧
      (getThenSet (ofValues 1 2 3 0 0 (-1)) [0] 1).map (fun r => (r.1.x 0, r.2)) =
        some (2, [2]) ∧
      (ofValues 1 2 3 0 0 (-1)).x 0 = 1 ∧ ((2 : TacsScalar) ≠ 1) := by
  refine ⟨by decide, ?_, rfl, by norm_num⟩
  simp [getThenSet, getDesignVars, setDesignVars, getLine, setLine, writeAt, readAt, ofValues]

/-- C7, amended: `getDesignVars(dvs, n)` followed by `setDesignVars(dvs, n)` on the array
just written (of at least `n` entries) returns, keeps `xDV`, and leaves `x[0], x[1], x[2]`
at their former values exactly when any two components that share an index in `[0, n)`
hold equal values; in particular when the in-range indices are pairwise distinct. -/
theorem getThenSet_inverse_iff (v : TACSGibbsVector) (dvs : List TacsScalar) (n : Int)
    (hn : n ≤ (dvs.length : Int)) :
    ∃ w out, getThenSet v dvs n = some (w, out) ∧ w.xDV = v.xDV ∧
      ((∀ i : Fin 3, w.x i = v.x i) ↔
        ∀ i j : Fin 3, 0 ≤ v.xDV i ∧ v.xDV i < n → v.xDV i = v.xDV j → v.x i = v.x j) ∧
      ((∀ i j : Fin 3, 0 ≤ v.xDV i ∧ v.xDV i < n → v.xDV i = v.xDV j → i = j) →
        ∀ i : Fin 3, w.x i = v.x i) := by
  obtain ⟨w, out, e, hd, hx⟩ := getThenSet_spec v dvs n hn
  have key : (∀ i j : Fin 3, 0 ≤ v.xDV i ∧ v.xDV i < n → v.xDV i = v.xDV j → v.x i = v.x j) →
      ∀ i : Fin 3, w.x i = v.x i := by
    intro h i
    by_cases hi : inRange v n i
    · obtain ⟨j, hj, -, hw⟩ := (hx i).1 hi
      rw [hw]
      exact (h i j hi hj.symm).symm
    · exact (hx i).2 hi
  refine ⟨w, out, e, hd, ⟨?_, key⟩, ?_⟩
  · intro h i j hi hij
    have hj : inRange v n j := by
      unfold inRange
      rw [← hij]
      exact hi
    obtain ⟨a, ha, hamax, hwa⟩ := (hx i).1 hi
    obtain ⟨b, hb, hbmax, hwb⟩ := (hx j).1 hj
    have hab : a = b :=
      le_antisymm (hbmax a (by rw [ha, hij])) (hamax b (by rw [hb, hij]))
    rw [← h i, ← h j, hwa, hwb, hab]
  · intro hinj
    refine key fun i j hi hij => ?_
    rw [hinj i j hi hij]

theorem getThenSet_inverse_iff_witness :
    ∃ w out, getThenSet (ofValues 1 2 3 0 1 (-1)) [0, 0] 2 = some (w, out) ∧
      w.xDV = (ofValues 1 2 3 0 1 (-1)).xDV ∧
      ((∀ i : Fin 3, w.x i = (ofValues 1 2 3 0 1 (-1)).x i) ↔
        ∀ i j : Fin 3,
          0 ≤ (ofValues 1 2 3 0 1 (-1)).xDV i ∧ (ofValues 1 2 3 0 1 (-1)).xDV i < 2 →
          (ofValues 1 2 3 0 1 (-1)).xDV i = (ofValues 1 2 3 0 1 (-1)).xDV j →
          (ofValues 1 2 3 0 1 (-1)).x i = (ofValues 1 2 3 0 1 (-1)).x j) ∧
      ((∀ i j : Fin 3,
          0 ≤ (ofValues 1 2 3 0 1 (-1)).xDV i ∧ (ofValues 1 2 3 0 1 (-1)).xDV i < 2 →
          (ofValues 1 2 3 0 1 (-1)).xDV i = (ofValues 1 2 3 0 1 (-1)).xDV j → i = j) →
        ∀ i : Fin 3, w.x i = (ofValues 1 2 3 0 1 (-1)).x i) :=
  getThenSet_inverse_iff (ofValues 1 2 3 0 1 (-1)) [0, 0] 2 (by decide)

/-! ## Indices out of range, and memory safety -/

theorem setLine_skip (i : Fin 3) (v : TACSGibbsVector) (dvs : List TacsScalar) (n : Int)
    (h : v.xDV i < 0 ∨ n ≤ v.xDV i) : setLine i v dvs n = some v := by
  simp only [setLine, ge_iff_le]
  rw [if_neg (fun hg => by omega)]

theorem getLine_skip (i : Fin 3) (v : TACSGibbsVector) (dvs : List TacsScalar) (n : Int)
    (h : v.xDV i < 0 ∨ n ≤ v.xDV i) : getLine i v dvs n = some (v, dvs) := by
  simp only [getLine, ge_iff_le]
  rw [if_neg (fun hg => by omega)]

theorem addLine_skip (i : Fin 3) (v : TACSGibbsVector) (a : List TacsScalar) (n : Int)
    (scale : TacsScalar) (psi : List TacsScalar) (h : v.xDV i < 0 ∨ n ≤ v.xDV i) :
    addLine i v a n scale psi = some (v, a) := by
  simp only [addLine, ge_iff_le]
  rw [if_neg (fun hg => by omega)]

theorem skip_all (v : TACSGibbsVector) (n : Int) (dvs fdvSens : List TacsScalar)
    (scale : TacsScalar) (psi : List TacsScalar) (h : ∀ i : Fin 3, v.xDV i < 0 ∨ n ≤ v.xDV i) :
    setDesignVars v dvs n = some v ∧ getDesignVars v dvs n = some (v, dvs) ∧
      addPointAdjResProduct v fdvSens n scale psi = some (v, fdvSens) := by
  refine ⟨?_, ?_, ?_⟩
  · simp [setDesignVars, setLine_skip _ v dvs n (h _)]
  · simp [getDesignVars, getLine_skip _ v dvs n (h _)]
  · simp [addPointAdjResProduct, addLine_skip _ v fdvSens n scale psi (h _)]

theorem ofCoords_spec (_x : List TacsScalar) (h : 3 ≤ _x.length) :
    ∃ v, ofCoords _x = some v ∧ (∀ i : Fin 3, _x[i.val]? = some (v.x i)) ∧
      ∀ i : Fin 3, v.xDV i = -1 := by
  obtain ⟨p, hp⟩ := psi_entries _x h
  have h0 := hp 0
  have h1 := hp 1
  have h2 := hp 2
  simp only [Fin.val_zero, Fin.val_one, Fin.val_two] at h0 h1 h2
  refine ⟨{ x := ![p 0, p 1, p 2], xDV := ![-1, -1, -1] }, ?_, ?_, ?_⟩
  · simp [ofCoords, readAt, h0, h1, h2]
  · exact fin3_forall h0 h1 h2
  · exact fin3_forall rfl rfl rfl

/-- C6: when all three indices lie outside `[0, n)`, `setDesignVars` returns with the
object unchanged, `getDesignVars` returns with `dvs` unchanged and `addPointAdjResProduct`
returns with `fdvSens` unchanged, whatever the arrays are; and this is so for every `n` for a
vector built by the coordinates-only constructor, whose indices are all `-1`. -/
theorem outOfRange_is_noop :
    (∀ (v : TACSGibbsVector) (n : Int) (dvs fdvSens : List TacsScalar) (scale : TacsScalar)
        (psi : List TacsScalar), (∀ i : Fin 3, v.xDV i < 0 ∨ n ≤ v.xDV i) →
        setDesignVars v dvs n = some v ∧ getDesignVars v dvs n = some (v, dvs) ∧
          addPointAdjResProduct v fdvSens n scale psi = some (v, fdvSens)) ∧
    (∀ _x : List TacsScalar, 3 ≤ _x.length →
      ∃ v, ofCoords _x = some v ∧ (∀ i : Fin 3, v.xDV i = -1) ∧
        ∀ (n : Int) (dvs fdvSens : List TacsScalar) (scale : TacsScalar)
          (psi : List TacsScalar),
          setDesignVars v dvs n = some v ∧ getDesignVars v dvs n = some (v, dvs) ∧
            addPointAdjResProduct v fdvSens n scale psi = some (v, fdvSens)) := by
  refine ⟨skip_all, ?_⟩
  intro _x hx
  obtain ⟨v, e, -, hd⟩ := ofCoords_spec _x hx
  refine ⟨v, e, hd, ?_⟩
  intro n dvs fdvSens scale psi
  refine skip_all v n dvs fdvSens scale psi fun i => Or.inl ?_
  rw [hd i]
  decide

theorem outOfRange_is_noop_witness :
    (setDesignVars (ofValues 1 2 3 (-1) 2 7) [10, 20] 2 = some (ofValues 1 2 3 (-1) 2 7) ∧
      getDesignVars (ofValues 1 2 3 (-1) 2 7) [10, 20] 2 =
        some (ofValues 1 2 3 (-1) 2 7, [10, 20]) ∧
      addPointAdjResProduct (ofValues 1 2 3 (-1) 2 7) [10, 20] 2 5 [1, 1, 1] =
        some (ofValues 1 2 3 (-1) 2 7, [10, 20])) ∧
    (∃ v, ofCoords [0, 0, 1] = some v ∧ (∀ i : Fin 3, v.xDV i = -1) ∧
        ∀ (n : Int) (dvs fdvSens : List TacsScalar) (scale : TacsScalar)
          (psi : List TacsScalar),
          setDesignVars v dvs n = some v ∧ getDesignVars v dvs n = some (v, dvs) ∧
            addPointAdjResProduct v fdvSens n scale psi = some (v, fdvSens)) :=
  ⟨outOfRange_is_noop.1 (ofValues 1 2 3 (-1) 2 7) 2 [10, 20] [10, 20] 5 [1, 1, 1]
      (fin3_forall (by decide) (by decide) (by decide)),
    outOfRange_is_noop.2 [0, 0, 1] (by decide)⟩

/-- C10: with arbitrary integer indices, arrays `dvs` and `fdvSens` of exactly `n` entries
and `psi` of 3 entries, none of `setDesignVars`, `getDesignVars`, `addPointAdjResProduct`
reaches an out-of-bounds access: each one returns. -/
theorem accesses_inBounds (v : TACSGibbsVector) (dvs fdvSens : List TacsScalar) (n : Int)
    (scale : TacsScalar) (psi : List TacsScalar) (hd : (dvs.length : Int) = n)
    (hf : (fdvSens.length : Int) = n) (hpsi : psi.length = 3) :
    setDesignVars v dvs n ≠ none ∧ getDesignVars v dvs n ≠ none ∧
      addPointAdjResProduct v fdvSens n scale psi ≠ none := by
  obtain ⟨p, hp⟩ := psi_entries psi (le_of_eq hpsi.symm)
  obtain ⟨w, e1, -⟩ := setDesignVars_spec v dvs n (le_of_eq hd.symm)
  obtain ⟨o2, e2, -⟩ := getDesignVars_spec v dvs n (le_of_eq hd.symm)
  obtain ⟨o3, e3, -⟩ := addPointAdjResProduct_spec v fdvSens n scale psi p (le_of_eq hf.symm) hp
  rw [e1, e2, e3]
  exact ⟨Option.some_ne_none _, Option.some_ne_none _, Option.some_ne_none _⟩

theorem accesses_inBounds_witness :
    setDesignVars (ofValues 1 2 3 (-4) 1 2) [10, 20] 2 ≠ none ∧
      getDesignVars (ofValues 1 2 3 (-4) 1 2) [10, 20] 2 ≠ none ∧
      addPointAdjResProduct (ofValues 1 2 3 (-4) 1 2) [30, 40] 2 5 [1, 10, 100] ≠ none :=
  accesses_inBounds (ofValues 1 2 3 (-4) 1 2) [10, 20] [30, 40] 2 5 [1, 10, 100]
    (by decide) (by decide) (by decide)

/-! ## Reference counts in the example driver -/

/-- C8 does not hold of the code: `main` calls `decref` on `bodyA` once with no `incref`
(so the release comes with no reference held), and calls `incref` on `omegaInitVec` and on
`pointVec` once with no `decref`; the other ten objects are balanced. -/
theorem rigidMain_refcount_imbalance :
    (increfs rigidMain .bodyA = 0 ∧ decrefs rigidMain .bodyA = 1 ∧
      driverHolds .bodyA rigidMain 0 = none) ∧
    (increfs rigidMain .omegaInitVec = 1 ∧ decrefs rigidMain .omegaInitVec = 0 ∧
      driverHolds .omegaInitVec rigidMain 0 = some 1) ∧
    (increfs rigidMain .pointVec = 1 ∧ decrefs rigidMain .pointVec = 0 ∧
      driverHolds .pointVec rigidMain 0 = some 1) ∧
    (∀ o ∈ driverObjects, o ≠ .bodyA → o ≠ .omegaInitVec → o ≠ .pointVec →
      decrefs rigidMain o = increfs rigidMain o ∧ driverHolds o rigidMain 0 = some 0) ∧
    ¬ (∀ o ∈ driverObjects, decrefs rigidMain o = increfs rigidMain o) := by
  refine ⟨by decide, by decide, by decide, by decide, by decide⟩

end TACS
